import Mathlib

/-!
Shallow embedding of `naive-rs` (`src/naive_vec.rs`): a growable
contiguous-array container (`NaiveVec<T>`) built on a raw buffer
(`RawVec<T>`), with a raw value iterator (`RawValIter<T>`) and a `Drain`
iterator.

Modelling decisions (constant across the file):
* The backing buffer behind `RawVec::ptr` is modelled as slot-indexed
  memory `mem : Nat → Option α`: `mem i = some x` means the bytes at
  `ptr.add(i)` hold an initialized value `x`, `none` means the slot was
  never written.  `ptr::write(ptr.add(i), x)` sets slot `i`;
  `ptr::read(ptr.add(i))` returns slot `i`'s contents and is undefined
  behaviour (`Err.ub`) on an uninitialized slot.  `ptr::copy(src, dst, n)`
  has `memmove` semantics: every destination slot is computed from the
  pre-copy memory.  `realloc` preserves the contents of all slots.
* `std::mem::size_of::<T>()` is an explicit parameter `sz : Nat` of each
  monomorphic operation; a zero-sized type is `sz = 0` (for a ZST all
  pointer arithmetic in the source degenerates to address-unit counting,
  which coincides with slot counting, and reads of a ZST always succeed
  producing the unique value of a marker type, which for a subsingleton
  element type coincides with reading the logical slot).
* Machine integers `usize` / `isize` are `Nat` with the 64-bit platform
  bounds `USIZE_MAX` / `ISIZE_MAX` made explicit exactly where the source
  checks them.  All arithmetic the source performs is overflow-free under
  the buffer invariant (`cap * sz ≤ isize::MAX` for `sz ≠ 0`), so plain
  `Nat` arithmetic is faithful.
* Fatal outcomes (`panic!`, failed `assert!`, `Layout::array(..).unwrap()`
  failure) are `Except Err` errors; `handle_alloc_error` (OOM abort) is
  not modelled — the allocator is idealized as always succeeding, which
  is the only part of the environment the source defers to.
* The ghost field `RawVec.allocated` tracks whether `ptr` is a real heap
  allocation (`true` after any `grow`) or still the initial
  `NonNull::dangling()` sentinel (`false` from `new`), so that "no
  allocation ever occurs" is directly observable.
-/

namespace NaiveRs

/-- `usize::MAX` on a 64-bit platform. -/
def USIZE_MAX : Nat := 18446744073709551615

/-- `isize::MAX` on a 64-bit platform: the maximum representable signed
offset, the bound the source checks in `RawVec::grow`. -/
def ISIZE_MAX : Nat := 9223372036854775807

/-- Fatal or undefined outcomes of the source's operations.
`capacityOverflow` covers the `assert!` failures in `RawVec::grow`
(both the zero-sized-type guard with message "capacity overflow" and the
byte-size limit), `oob` the `panic!("index out of bounds")` in
`insert`/`remove`, and `ub` a typed `ptr::read` of an uninitialized
slot (undefined behaviour, never a run-time event under the container
invariant). -/
inductive Err where
  | capacityOverflow
  | oob
  | ub
deriving DecidableEq, Repr

/-- `RawVec<T>`: `cap` is the `cap` field; the `ptr` field together with
the heap memory behind it is modelled by `mem` (slot contents) plus the
ghost flag `allocated` (whether `ptr` is a live allocation rather than
`NonNull::dangling()`).  `_marker : PhantomData<T>` has no run-time
content. -/
structure RawVec (α : Type) where
  cap : Nat
  mem : Nat → Option α
  allocated : Bool

/-- `RawVec::new`: capacity is `usize::MAX` for a zero-sized type, else 0;
the pointer is dangling (no allocation), so no slot is initialized. -/
def RawVec.new (α : Type) (sz : Nat) : RawVec α :=
  { cap := if sz = 0 then USIZE_MAX else 0,
    mem := fun _ => none,
    allocated := false }

/-- `RawVec::grow`.
* `assert!(size_of::<T>() != 0, "capacity overflow")`: fatal for `sz = 0`.
* part 1: `new_cap = 1` if `cap = 0`, else `cap * 2`.
* `Layout::array::<T>(new_cap).unwrap()` together with
  `assert!(new_layout.size() <= isize::MAX as usize, ...)` is fatal
  exactly when `new_cap * sz > isize::MAX` (whichever of the two checks
  fires first, both outcomes are fatal, and every byte size above
  `usize::MAX` is also above `isize::MAX`), modelled as a single test.
* part 2: `alloc`/`realloc`; `realloc` preserves slot contents, so `mem`
  is unchanged; the ghost `allocated` becomes `true`. -/
def RawVec.grow (sz : Nat) (rv : RawVec α) : Except Err (RawVec α) :=
  if sz = 0 then .error .capacityOverflow
  else if (if rv.cap = 0 then 1 else rv.cap * 2) * sz ≤ ISIZE_MAX then
    .ok { rv with cap := if rv.cap = 0 then 1 else rv.cap * 2, allocated := true }
  else .error .capacityOverflow

/-- Slots whose element destructor is invoked by `Drop for RawVec`:
its body only calls `alloc::dealloc` (and only when `cap ≠ 0` and
`size_of::<T>() ≠ 0`), which frees the bytes without running any `T`
destructor, so the list is empty for every buffer. -/
def RawVec.dropDestructs (_sz : Nat) (_rv : RawVec α) : List Nat := []

/-- `NaiveVec<T>`: an owned `RawVec` plus the count of live elements. -/
structure NaiveVec (α : Type) where
  buf : RawVec α
  len : Nat

/-- `NaiveVec::new`: empty buffer, length 0. -/
def NaiveVec.new (α : Type) (sz : Nat) : NaiveVec α :=
  { buf := RawVec.new α sz, len := 0 }

/-- `NaiveVec::push`: grow when `len == cap`, then
`ptr::write(ptr.add(len), elem)` (write slot `len`), then `len += 1`. -/
def NaiveVec.push (sz : Nat) (v : NaiveVec α) (elem : α) : Except Err (NaiveVec α) :=
  match (if v.len = v.buf.cap then v.buf.grow sz else .ok v.buf) with
  | .error e => .error e
  | .ok buf =>
      .ok { buf := { buf with mem := fun i => if i = v.len then some elem else buf.mem i },
            len := v.len + 1 }

/-- `NaiveVec::pop`: on length 0 return `None`; otherwise decrement the
length and `ptr::read(ptr.add(len))` the value at the new length (the
bytes stay in place, the slot is merely no longer live). -/
def NaiveVec.pop (v : NaiveVec α) : Except Err (Option α × NaiveVec α) :=
  match v.len with
  | 0 => .ok (none, v)
  | n + 1 =>
      match v.buf.mem n with
      | some x => .ok (some x, { v with len := n })
      | none => .error .ub

/-- `NaiveVec::insert`: `panic!("index out of bounds")` if `index > len`;
grow when full; `ptr::copy(p, p.add(1), len - index)` moves slots
`[index, len)` to `[index + 1, len + 1)` (memmove: destinations read the
pre-copy memory); `ptr::write(p, elem)` then fills slot `index`;
`len += 1`. -/
def NaiveVec.insert (sz : Nat) (v : NaiveVec α) (index : Nat) (elem : α) :
    Except Err (NaiveVec α) :=
  if v.len < index then .error .oob
  else
    match (if v.buf.cap = v.len then v.buf.grow sz else .ok v.buf) with
    | .error e => .error e
    | .ok buf =>
        let mem' : Nat → Option α := fun j =>
          if j = index then some elem
          else if index + 1 ≤ j ∧ j < v.len + 1 then buf.mem (j - 1)
          else buf.mem j
        .ok { buf := { buf with mem := mem' }, len := v.len + 1 }

/-- `NaiveVec::remove`: `panic!("index out of bounds")` if `index >= len`;
`len -= 1`; `ptr::read(p)` the value at `index` (UB if uninitialized);
`ptr::copy(p.add(1), p, len - index)` moves slots
`[index + 1, index + 1 + (newLen - index))` down one (memmove). -/
def NaiveVec.remove (v : NaiveVec α) (index : Nat) : Except Err (α × NaiveVec α) :=
  if v.len ≤ index then .error .oob
  else
    match v.buf.mem index with
    | none => .error .ub
    | some result =>
        let mem' : Nat → Option α := fun j =>
          if index ≤ j ∧ j < v.len - 1 then v.buf.mem (j + 1)
          else v.buf.mem j
        .ok (result, { buf := { v.buf with mem := mem' }, len := v.len - 1 })

/-- Reading index `i` through the `Deref`-provided slice
`slice::from_raw_parts(ptr, len)`: in bounds it is the contents of slot
`i`; out of bounds the slice indexing has no value. -/
def NaiveVec.read (v : NaiveVec α) (i : Nat) : Option α :=
  if i < v.len then v.buf.mem i else none

/-- The live elements in forward order, as exposed by the `Deref` slice
`[0, len)`. -/
def NaiveVec.derefVals (v : NaiveVec α) : List α :=
  (List.range v.len).filterMap v.buf.mem

/-- `Drop for NaiveVec` expressed as (post-state, slots whose element
destructor ran): the body is exactly `self.len = 0;` — a field
assignment, with no `ptr::drop_in_place` and no pop loop — so no element
destructor runs here. -/
def NaiveVec.dropSelf (v : NaiveVec α) : NaiveVec α × List Nat :=
  ({ v with len := 0 }, [])

/-- Full destruction of a `NaiveVec`: Rust's drop glue runs
`Drop for NaiveVec` (sets `len = 0`), then drops the `buf` field via
`Drop for RawVec` (deallocation only).  The result is the list of slots
whose element destructor was invoked, in order. -/
def NaiveVec.destroy (sz : Nat) (v : NaiveVec α) : List Nat :=
  (v.dropSelf).2 ++ RawVec.dropDestructs sz (v.dropSelf).1.buf

/-- `RawValIter<T>`: the `start`/`end` pointer pair, in element strides
from the buffer base (for a zero-sized type the source steps addresses
by 1 per element, which is the same counting), plus the memory it reads
through. -/
structure RawValIter (α : Type) where
  start : Nat
  stop : Nat
  mem : Nat → Option α

/-- `RawValIter::new(slice)` over the container's live range: `start` is
the base, `end` is `start + len` in strides — all three source branches
(zero-sized, empty, ordinary) produce exactly `len` strides between
`start` and `end`. -/
def RawValIter.new (v : NaiveVec α) : RawValIter α :=
  { start := 0, stop := v.len, mem := v.buf.mem }

/-- `Iterator::next` for `RawValIter`: exhausted when `start == end`,
otherwise `ptr::read(start)` then advance `start` one stride. -/
def RawValIter.next (it : RawValIter α) : Except Err (Option α × RawValIter α) :=
  if it.start = it.stop then .ok (none, it)
  else
    match it.mem it.start with
    | some result => .ok (some result, { it with start := it.start + 1 })
    | none => .error .ub

/-- `Drain<'a, T>`: wraps a `RawValIter`; the `PhantomData` borrow of the
container has no run-time content. -/
structure Drain (α : Type) where
  iter : RawValIter α

/-- `Iterator::next` for `Drain`: delegates to the inner `RawValIter`. -/
def Drain.next (d : Drain α) : Except Err (Option α × Drain α) :=
  match d.iter.next with
  | .error e => .error e
  | .ok (x, it) => .ok (x, { iter := it })

/-- Consumer harness: call `Drain::next` up to `fuel` times, collecting
the yielded elements until the iterator reports exhaustion. -/
def Drain.collect : Nat → Drain α → Except Err (List α)
  | 0, _ => .ok []
  | fuel + 1, d =>
      match d.next with
      | .error e => .error e
      | .ok (none, _) => .ok []
      | .ok (some x, d') => (Drain.collect fuel d').map (fun xs => x :: xs)

/-- Modelled from the spec: the source defines the `Drain` struct and its
`Iterator` impl but no constructor for it (no `NaiveVec::drain` method
exists under `src/`).  Per spec §4.4, draining "wraps a RawIterator over
the container's current live range" and leaves "the container's live
range … logically empty but its allocated capacity … retained", so the
constructor builds a `RawValIter` over the live range (via
`RawValIter::new` from the source) and sets the container's length to 0
while keeping its buffer. -/
def NaiveVec.drain (v : NaiveVec α) : Drain α × NaiveVec α :=
  ({ iter := RawValIter.new v }, { v with len := 0 })

/-- Pushing a list of elements left to right (a sequence of `push`
operations). -/
def NaiveVec.pushAll (sz : Nat) (v : NaiveVec α) : List α → Except Err (NaiveVec α)
  | [] => .ok v
  | x :: xs =>
      match v.push sz x with
      | .error e => .error e
      | .ok v' => v'.pushAll sz xs

/-- Popping `k` times, collecting each `pop` result. -/
def NaiveVec.popN (v : NaiveVec α) : Nat → Except Err (List (Option α) × NaiveVec α)
  | 0 => .ok ([], v)
  | k + 1 =>
      match v.pop with
      | .error e => .error e
      | .ok (x, v') => (v'.popN k).map (fun p => (x :: p.1, p.2))

/-- One public mutating operation of the container. -/
inductive Op (α : Type) where
  | push (x : α)
  | pop
  | insert (i : Nat) (x : α)
  | remove (i : Nat)

/-- Apply one operation, keeping only the resulting container state. -/
def NaiveVec.applyOp (sz : Nat) (v : NaiveVec α) : Op α → Except Err (NaiveVec α)
  | .push x => v.push sz x
  | .pop => (v.pop).map (·.2)
  | .insert i x => v.insert sz i x
  | .remove i => (v.remove i).map (·.2)

/-- Apply a sequence of operations. -/
def NaiveVec.applyOps (sz : Nat) (v : NaiveVec α) : List (Op α) → Except Err (NaiveVec α)
  | [] => .ok v
  | op :: ops =>
      match v.applyOp sz op with
      | .error e => .error e
      | .ok v' => v'.applyOps sz ops

/-! ### Basic lemmas about `grow` and `push` -/

/-- A successful `grow` leaves the slot contents untouched (`realloc`
copies the bytes), doubles the capacity (or sets it to 1 from 0), and
marks the buffer allocated. -/
theorem RawVec.grow_ok {α} {sz : Nat} {rv rv' : RawVec α}
    (h : rv.grow sz = .ok rv') :
    rv'.mem = rv.mem ∧
    rv'.cap = (if rv.cap = 0 then 1 else rv.cap * 2) ∧
    rv'.allocated = true := by
  unfold RawVec.grow at h
  by_cases h0 : sz = 0
  · rw [if_pos h0] at h
    cases h
  · rw [if_neg h0] at h
    by_cases h1 : (if rv.cap = 0 then 1 else rv.cap * 2) * sz ≤ ISIZE_MAX
    · rw [if_pos h1] at h
      simp only [Except.ok.injEq] at h
      subst h
      exact ⟨rfl, rfl, rfl⟩
    · rw [if_neg h1] at h
      cases h

/-- `grow` on a zero-sized type always fails (the `assert!` guard). -/
theorem RawVec.grow_zst {α} (rv : RawVec α) :
    rv.grow 0 = .error .capacityOverflow := by
  unfold RawVec.grow
  simp

/-- Unfolding a successful `push`: the length increments, slot `len`
receives the element, all other slots are unchanged, and when no grow
was needed the capacity and allocation state are unchanged. -/
theorem NaiveVec.push_ok {α} {sz : Nat} {v v' : NaiveVec α} {elem : α}
    (h : v.push sz elem = .ok v') :
    v'.len = v.len + 1 ∧
    v'.buf.mem v.len = some elem ∧
    (∀ j, j ≠ v.len → v'.buf.mem j = v.buf.mem j) ∧
    (v.len ≠ v.buf.cap →
      v'.buf.cap = v.buf.cap ∧ v'.buf.allocated = v.buf.allocated) := by
  unfold NaiveVec.push at h
  by_cases hc : v.len = v.buf.cap
  · rw [if_pos hc] at h
    cases hg : v.buf.grow sz with
    | error e => rw [hg] at h; cases h
    | ok buf =>
        rw [hg] at h
        obtain ⟨hmem, _, _⟩ := RawVec.grow_ok hg
        simp only [Except.ok.injEq] at h
        subst h
        refine ⟨rfl, by simp, fun j hj => by simp [hj, hmem], fun hne => absurd hc hne⟩
  · rw [if_neg hc] at h
    simp only [Except.ok.injEq] at h
    subst h
    exact ⟨rfl, by simp, fun j hj => by simp [hj], fun _ => ⟨rfl, rfl⟩⟩

/-- Unfolding a successful sequence of pushes: the length grows by the
number of pushes, slots below the initial length are untouched, and slot
`v.len + k` holds the `k`-th pushed element. -/
theorem NaiveVec.pushAll_ok {α} {sz : Nat} {xs : List α} {v w : NaiveVec α}
    (h : v.pushAll sz xs = .ok w) :
    w.len = v.len + xs.length ∧
    (∀ j, j < v.len → w.buf.mem j = v.buf.mem j) ∧
    (∀ k, (hk : k < xs.length) → w.buf.mem (v.len + k) = some (xs.get ⟨k, hk⟩)) := by
  induction xs generalizing v with
  | nil =>
      unfold NaiveVec.pushAll at h
      simp only [Except.ok.injEq] at h
      subst h
      exact ⟨by simp, fun j _ => rfl, fun k hk => absurd hk (by simp)⟩
  | cons x xs ih =>
      unfold NaiveVec.pushAll at h
      cases hp : v.push sz x with
      | error e => rw [hp] at h; cases h
      | ok v₁ =>
          rw [hp] at h
          obtain ⟨hlen, hcur, hrest, _⟩ := NaiveVec.push_ok hp
          obtain ⟨ihlen, ihlow, ihnew⟩ := ih h
          refine ⟨by simp only [List.length_cons]; omega, ?_, ?_⟩
          · intro j hj
            rw [ihlow j (by omega), hrest j (by omega)]
          · intro k hk
            cases k with
            | zero =>
                have := ihlow v.len (by omega)
                simpa [this] using hcur
            | succ k' =>
                have hstep : v.len + (k' + 1) = v₁.len + k' := by omega
                rw [hstep, ihnew k' (by simpa using hk)]
                rfl

/-- C1: for every sequence of push operations starting from an empty
container (every element type, any element size including zero), if the
pushes complete then `len()` equals the number of pushes and reading
index `i` through the slice view returns the `i`-th pushed value. -/
theorem pushes_from_empty_spec {α} (sz : Nat) (xs : List α) (v : NaiveVec α)
    (h : (NaiveVec.new α sz).pushAll sz xs = .ok v) :
    v.len = xs.length ∧
    ∀ k, (hk : k < xs.length) → v.read k = some (xs.get ⟨k, hk⟩) := by
  obtain ⟨h1, _, h3⟩ := NaiveVec.pushAll_ok h
  have hlen : v.len = xs.length := by simpa [NaiveVec.new] using h1
  refine ⟨hlen, fun k hk => ?_⟩
  have := h3 k hk
  unfold NaiveVec.read
  rw [if_pos (by omega)]
  simpa [NaiveVec.new] using this

/-- Helper to name the container a successful operation produced. -/
def getOkV {α} (d : NaiveVec α) : Except Err (NaiveVec α) → NaiveVec α
  | .ok v => v
  | .error _ => d

/-- Three pushes of the zero-sized marker type `Unit` from empty. -/
def c1vec : NaiveVec Unit :=
  getOkV (NaiveVec.new Unit 0) ((NaiveVec.new Unit 0).pushAll 0 [(), (), ()])

/-- Witness for C1 at a concrete input: three pushes of the zero-sized
marker value give length 3 and index 1 reads back the pushed value. -/
theorem pushes_from_empty_spec_witness :
    c1vec.len = 3 ∧ c1vec.read 1 = some () :=
  ⟨(pushes_from_empty_spec 0 [(), (), ()] c1vec rfl).1,
   (pushes_from_empty_spec 0 [(), (), ()] c1vec rfl).2 1 (by decide)⟩

/-! ### pop: C9 and C8 -/

/-- Four pushes of `1, 2, 3, 4` into an empty `NaiveVec<i64>`
(element size 8), the configuration of the repository's own tests. -/
def cvec4 : NaiveVec Int :=
  getOkV (NaiveVec.new Int 8) ((NaiveVec.new Int 8).pushAll 8 [1, 2, 3, 4])

/-- C9: `pop()` returns the explicit no-value result (not an error)
exactly on length 0; on length `n + 1` it decrements the length to `n`
and returns ownership of the value in slot `n` (the last live element),
changing nothing else about the container, the popped slot's bytes
included (the slot is merely no longer live). -/
theorem pop_spec {α} (v : NaiveVec α) :
    (v.len = 0 → v.pop = .ok (none, v)) ∧
    (∀ n x, v.len = n + 1 → v.buf.mem n = some x →
      v.pop = .ok (some x, { v with len := n })) := by
  obtain ⟨buf, len⟩ := v
  constructor
  · intro h
    simp only at h
    subst h
    rfl
  · intro n x hlen hmem
    simp only at hlen
    subst hlen
    unfold NaiveVec.pop
    simp only
    rw [hmem]

/-- Witness for C9 at concrete inputs: popping `[1,2,3,4]` returns 4 and
length 3; popping the empty container returns the no-value result. -/
theorem pop_spec_witness :
    cvec4.pop = .ok (some 4, { cvec4 with len := 3 }) ∧
    (NaiveVec.new Int 8).pop = .ok (none, NaiveVec.new Int 8) :=
  ⟨(pop_spec cvec4).2 3 4 rfl rfl, (pop_spec (NaiveVec.new Int 8)).1 rfl⟩

/-- C8: a successful `push(v)` followed immediately by `pop()` returns
the just-pushed value and leaves the length at its value before the
push. -/
theorem push_pop_spec {α} (sz : Nat) (v v' : NaiveVec α) (elem : α)
    (h : v.push sz elem = .ok v') :
    v'.pop = .ok (some elem, { v' with len := v.len }) ∧
    ({ v' with len := v.len } : NaiveVec α).len = v.len := by
  obtain ⟨hlen, hcur, _, _⟩ := NaiveVec.push_ok h
  refine ⟨?_, rfl⟩
  obtain ⟨buf', len'⟩ := v'
  simp only at hlen hcur
  subst hlen
  unfold NaiveVec.pop
  simp only
  rw [hcur]

/-- The state after pushing 5 onto `[1,2,3,4]` (this push grows the
buffer from capacity 4 to 8). -/
def c8push : NaiveVec Int := getOkV cvec4 (cvec4.push 8 5)

/-- Witness for C8 at a concrete input: pushing 5 onto `[1,2,3,4]` and
popping returns 5 with the length back at 4. -/
theorem push_pop_spec_witness :
    c8push.pop = .ok (some 5, { c8push with len := 4 }) ∧
    ({ c8push with len := 4 } : NaiveVec Int).len = 4 :=
  push_pop_spec 8 cvec4 c8push 5 rfl

/-! ### remove: C4 and C10 -/

/-- C4: `remove(i)` fails fatally with the out-of-bounds panic exactly
when `i ≥ len`; on a live in-bounds slot it succeeds, and every success
returns the value previously stored at position `i`, decreases the
length by exactly 1, and moves every element originally at a position
greater than `i` one position left, order preserved. -/
theorem remove_spec {α} (v : NaiveVec α) (index : Nat) :
    (v.len ≤ index → v.remove index = .error .oob) ∧
    (∀ x, index < v.len → v.buf.mem index = some x →
      ∃ v', v.remove index = .ok (x, v')) ∧
    (∀ x v', v.remove index = .ok (x, v') →
      index < v.len ∧
      v.read index = some x ∧
      v'.len = v.len - 1 ∧
      (∀ j, index ≤ j → j + 1 < v.len → v'.read j = v.read (j + 1))) := by
  refine ⟨fun h => ?_, fun x h1 h2 => ?_, fun x v' h => ?_⟩
  · unfold NaiveVec.remove
    rw [if_pos h]
  · unfold NaiveVec.remove
    rw [if_neg (by omega), h2]
    exact ⟨_, rfl⟩
  · unfold NaiveVec.remove at h
    by_cases hle : v.len ≤ index
    · rw [if_pos hle] at h; cases h
    · rw [if_neg hle] at h
      cases hm : v.buf.mem index with
      | none => rw [hm] at h; cases h
      | some r =>
          rw [hm] at h
          simp only [Except.ok.injEq, Prod.mk.injEq] at h
          obtain ⟨hx, hv⟩ := h
          subst hx
          subst hv
          refine ⟨by omega, ?_, rfl, ?_⟩
          · unfold NaiveVec.read
            rw [if_pos (by omega), hm]
          · intro j hj1 hj2
            dsimp only [NaiveVec.read]
            split_ifs <;> first | rfl | omega

/-- The container after `remove(1)` on `[1,2,3,4]`. -/
def c4rm : NaiveVec Int :=
  match cvec4.remove 1 with
  | .ok p => p.2
  | .error _ => cvec4

/-- Witness for C4 at concrete inputs: `remove(9)` on `[1,2,3,4]` is the
out-of-bounds panic; `remove(1)` returns 2, leaves length 3, and the
element previously at position 2 is now at position 1. -/
theorem remove_spec_witness :
    cvec4.remove 9 = .error .oob ∧
    cvec4.remove 1 = .ok (2, c4rm) ∧
    c4rm.len = 3 ∧
    c4rm.read 1 = cvec4.read 2 := by
  refine ⟨(remove_spec cvec4 9).1 (by decide), rfl, ?_, ?_⟩
  · exact ((remove_spec cvec4 1).2.2 2 c4rm rfl).2.2.1
  · exact ((remove_spec cvec4 1).2.2 2 c4rm rfl).2.2.2 1 (by decide) (by decide)

/-- C10: `remove(i)` on an in-bounds index leaves the elements at
positions `[0, i)` exactly as they were. -/
theorem remove_frame {α} (v : NaiveVec α) (index : Nat) (x : α) (v' : NaiveVec α)
    (h : v.remove index = .ok (x, v')) :
    ∀ j, j < index → v'.read j = v.read j := by
  unfold NaiveVec.remove at h
  by_cases hle : v.len ≤ index
  · rw [if_pos hle] at h; cases h
  · rw [if_neg hle] at h
    cases hm : v.buf.mem index with
    | none => rw [hm] at h; cases h
    | some r =>
        rw [hm] at h
        simp only [Except.ok.injEq, Prod.mk.injEq] at h
        obtain ⟨hx, hv⟩ := h
        subst hv
        intro j hj
        dsimp only [NaiveVec.read]
        split_ifs <;> first | rfl | omega

/-- The container after `remove(2)` on `[1,2,3,4]`. -/
def c10rm : NaiveVec Int :=
  match cvec4.remove 2 with
  | .ok p => p.2
  | .error _ => cvec4

/-- Witness for C10 at a concrete input: after `remove(2)` on
`[1,2,3,4]`, positions 0 and 1 still read `1` and `2`. -/
theorem remove_frame_witness :
    c10rm.read 0 = cvec4.read 0 ∧ c10rm.read 1 = cvec4.read 1 :=
  ⟨remove_frame cvec4 2 3 c10rm rfl 0 (by decide),
   remove_frame cvec4 2 3 c10rm rfl 1 (by decide)⟩

/-! ### insert: C5 -/

/-- C5: `insert(i, v)` fails fatally with the out-of-bounds panic
exactly when `i > len` (appending at `i = len` is valid); every
successful insert puts `v` at position `i`, increases the length by
exactly 1, shifts the elements formerly at positions `[i, len)` one
position right in order, and leaves positions `[0, i)` unchanged. -/
theorem insert_spec {α} (sz : Nat) (v : NaiveVec α) (index : Nat) (elem : α) :
    (v.len < index → v.insert sz index elem = .error .oob) ∧
    (∀ v', v.insert sz index elem = .ok v' →
      index ≤ v.len ∧
      v'.read index = some elem ∧
      v'.len = v.len + 1 ∧
      (∀ j, index ≤ j → j < v.len → v'.read (j + 1) = v.read j) ∧
      (∀ j, j < index → v'.read j = v.read j)) := by
  constructor
  · intro h
    unfold NaiveVec.insert
    rw [if_pos h]
  · intro v' h
    unfold NaiveVec.insert at h
    by_cases hlt : v.len < index
    · rw [if_pos hlt] at h; cases h
    · rw [if_neg hlt] at h
      cases hb : (if v.buf.cap = v.len then v.buf.grow sz else .ok v.buf) with
      | error e => rw [hb] at h; cases h
      | ok buf =>
          rw [hb] at h
          have hmem : buf.mem = v.buf.mem := by
            by_cases hc : v.buf.cap = v.len
            · rw [if_pos hc] at hb
              exact (RawVec.grow_ok hb).1
            · rw [if_neg hc] at hb
              simp only [Except.ok.injEq] at hb
              subst hb
              rfl
          simp only [Except.ok.injEq] at h
          subst h
          simp only [hmem]
          refine ⟨by omega, ?_, by trivial, ?_, ?_⟩
          · dsimp only [NaiveVec.read]
            split_ifs <;> first | rfl | omega
          · intro j hj1 hj2
            dsimp only [NaiveVec.read]
            split_ifs <;> first | rfl | omega
          · intro j hj
            dsimp only [NaiveVec.read]
            split_ifs <;> first | rfl | omega

/-- The container after `insert(2, 8)` on `[1,2,3,4]` (the repository's
own `insert_works_correctly` test input; this insert grows the buffer
from capacity 4 to 8). -/
def c5ins : NaiveVec Int :=
  match cvec4.insert 8 2 8 with
  | .ok w => w
  | .error _ => cvec4

/-- Witness for C5 at concrete inputs: `insert(9, 0)` on the length-4
container is the out-of-bounds panic; after `insert(2, 8)`, position 2
reads 8, the length is 5, the old position-2 element moved to
position 3, and position 1 is unchanged. -/
theorem insert_spec_witness :
    cvec4.insert 8 9 0 = .error .oob ∧
    c5ins.read 2 = some 8 ∧
    c5ins.len = 5 ∧
    c5ins.read 3 = cvec4.read 2 ∧
    c5ins.read 1 = cvec4.read 1 := by
  refine ⟨(insert_spec 8 cvec4 9 0).1 (by decide), ?_, ?_, ?_, ?_⟩
  · exact ((insert_spec 8 cvec4 2 8).2 c5ins rfl).2.1
  · exact ((insert_spec 8 cvec4 2 8).2 c5ins rfl).2.2.1
  · exact ((insert_spec 8 cvec4 2 8).2 c5ins rfl).2.2.2.1 2 (by decide) (by decide)
  · exact ((insert_spec 8 cvec4 2 8).2 c5ins rfl).2.2.2.2 1 (by decide)

/-! ### grow: C6 -/

/-- C6: for a nonzero element size, `grow()` sets the new capacity to 1
from capacity 0 and to double the current capacity otherwise, and fails
fatally whenever the byte size of the new capacity would exceed
`isize::MAX`. -/
theorem grow_spec {α} (sz : Nat) (rv : RawVec α) (hsz : sz ≠ 0) :
    ((if rv.cap = 0 then 1 else rv.cap * 2) * sz ≤ ISIZE_MAX →
      rv.grow sz =
        .ok { rv with cap := if rv.cap = 0 then 1 else rv.cap * 2, allocated := true }) ∧
    (ISIZE_MAX < (if rv.cap = 0 then 1 else rv.cap * 2) * sz →
      rv.grow sz = .error .capacityOverflow) := by
  constructor <;> intro h <;> unfold RawVec.grow
  · rw [if_neg hsz, if_pos h]
  · rw [if_neg hsz, if_neg (by omega)]

/-- A buffer whose doubled byte size would pass `isize::MAX`:
capacity `2^60` of an 8-byte element type. -/
def bigRv : RawVec Int :=
  { cap := 1152921504606846976, mem := fun _ => none, allocated := true }

/-- Witness for C6 at concrete inputs: growing a fresh 8-byte-element
buffer allocates capacity 1; growing from capacity `2^60` (byte size
`2^64` after doubling) is the fatal capacity overflow. -/
theorem grow_spec_witness :
    (RawVec.new Int 8).grow 8 =
      .ok { RawVec.new Int 8 with cap := 1, allocated := true } ∧
    bigRv.grow 8 = .error .capacityOverflow := by
  constructor
  · have h := (grow_spec 8 (RawVec.new Int 8) (by decide)).1 (by decide)
    rw [h]
    rfl
  · exact (grow_spec 8 bigRv (by decide)).2 (by decide)

/-! ### destruction: C2 -/

/-- C2 (refuted — the code contradicts the spec's and its own comment's
intent): destroying the four-element container runs element destructors
on an empty list of slots, not once per live element.  `Drop for
NaiveVec` is `self.len = 0;` (the comment above it claims this replaces
the example's pop-until-`None` loop, but the assignment moves no value
out and calls no destructor) and `Drop for RawVec` only deallocates, so
the number of element-destructor invocations is 0 where the claim
requires exactly `len = 4`. -/
theorem destroy_runs_no_destructors :
    cvec4.len = 4 ∧
    NaiveVec.destroy 8 cvec4 = [] ∧
    (NaiveVec.destroy 8 cvec4).length ≠ cvec4.len := by
  refine ⟨rfl, rfl, by decide⟩

/-! ### zero-sized types: C7 -/

/-- Any single successful operation on a zero-sized element type leaves
the capacity at `usize::MAX` and performs no allocation: `grow` (the
only place that allocates or changes capacity) is unreachable for
`sz = 0` because it fails its first assertion. -/
theorem NaiveVec.applyOp_zst {α} {v v' : NaiveVec α} {op : Op α}
    (hcap : v.buf.cap = USIZE_MAX) (hal : v.buf.allocated = false)
    (h : v.applyOp 0 op = .ok v') :
    v'.buf.cap = USIZE_MAX ∧ v'.buf.allocated = false := by
  cases op with
  | push x =>
      dsimp only [NaiveVec.applyOp] at h
      unfold NaiveVec.push at h
      by_cases hc : v.len = v.buf.cap
      · rw [if_pos hc, RawVec.grow_zst] at h
        cases h
      · rw [if_neg hc] at h
        simp only [Except.ok.injEq] at h
        subst h
        exact ⟨hcap, hal⟩
  | pop =>
      obtain ⟨buf, len⟩ := v
      cases len with
      | zero =>
          simp only [NaiveVec.applyOp, NaiveVec.pop, Except.map, Except.ok.injEq] at h
          subst h
          exact ⟨hcap, hal⟩
      | succ n =>
          dsimp only [NaiveVec.applyOp, NaiveVec.pop] at h
          cases hm : buf.mem n with
          | none =>
              rw [hm] at h
              simp [Except.map] at h
          | some x =>
              rw [hm] at h
              simp only [Except.map, Except.ok.injEq] at h
              subst h
              exact ⟨hcap, hal⟩
  | insert i x =>
      dsimp only [NaiveVec.applyOp] at h
      unfold NaiveVec.insert at h
      by_cases hi : v.len < i
      · rw [if_pos hi] at h
        cases h
      · rw [if_neg hi] at h
        by_cases hc : v.buf.cap = v.len
        · rw [if_pos hc, RawVec.grow_zst] at h
          cases h
        · rw [if_neg hc] at h
          simp only [Except.ok.injEq] at h
          subst h
          exact ⟨hcap, hal⟩
  | remove i =>
      dsimp only [NaiveVec.applyOp] at h
      unfold NaiveVec.remove at h
      by_cases hi : v.len ≤ i
      · rw [if_pos hi] at h
        cases h
      · rw [if_neg hi] at h
        cases hm : v.buf.mem i with
        | none =>
            rw [hm] at h
            simp [Except.map] at h
        | some x =>
            rw [hm] at h
            simp only [Except.map, Except.ok.injEq] at h
            subst h
            exact ⟨hcap, hal⟩

/-- The single-operation ZST invariant extended to every sequence of
operations. -/
theorem NaiveVec.applyOps_zst {α} {ops : List (Op α)} {v w : NaiveVec α}
    (hcap : v.buf.cap = USIZE_MAX) (hal : v.buf.allocated = false)
    (h : v.applyOps 0 ops = .ok w) :
    w.buf.cap = USIZE_MAX ∧ w.buf.allocated = false := by
  induction ops generalizing v with
  | nil =>
      unfold NaiveVec.applyOps at h
      simp only [Except.ok.injEq] at h
      subst h
      exact ⟨hcap, hal⟩
  | cons op ops ih =>
      unfold NaiveVec.applyOps at h
      cases ha : v.applyOp 0 op with
      | error e => rw [ha] at h; cases h
      | ok v₁ =>
          rw [ha] at h
          obtain ⟨h1, h2⟩ := NaiveVec.applyOp_zst hcap hal ha
          exact ih h1 h2 h

/-- For a zero-sized element type, any number of pushes up to
`usize::MAX` succeeds, never calling `grow` — the capacity, the absence
of allocation, and all other buffer state are preserved. -/
theorem NaiveVec.pushAll_zst_ok {α} (xs : List α) (v : NaiveVec α)
    (hcap : v.buf.cap = USIZE_MAX)
    (hlen : v.len + xs.length ≤ USIZE_MAX) :
    ∃ w, v.pushAll 0 xs = .ok w ∧
      w.buf.cap = v.buf.cap ∧ w.buf.allocated = v.buf.allocated := by
  induction xs generalizing v with
  | nil => exact ⟨v, rfl, rfl, rfl⟩
  | cons x xs ih =>
      have hne : v.len ≠ v.buf.cap := by
        rw [hcap]
        simp only [List.length_cons] at hlen
        omega
      have hpush : v.push 0 x =
          .ok { buf := { v.buf with
                  mem := fun i => if i = v.len then some x else v.buf.mem i },
                len := v.len + 1 } := by
        unfold NaiveVec.push
        rw [if_neg hne]
      obtain ⟨w, hw, hwc, hwa⟩ := ih
        { buf := { v.buf with
            mem := fun i => if i = v.len then some x else v.buf.mem i },
          len := v.len + 1 }
        (by simpa using hcap)
        (by simp only [List.length_cons] at hlen; simpa using (by omega : v.len + 1 + xs.length ≤ USIZE_MAX))
      refine ⟨w, ?_, by simpa using hwc, by simpa using hwa⟩
      unfold NaiveVec.pushAll
      rw [hpush]
      exact hw

/-- Popping a `Unit` container down from its full length yields the
zero-sized value every time and ends at length 0 with the buffer
untouched. -/
theorem NaiveVec.popN_units (K : Nat) (v : NaiveVec Unit)
    (hlen : v.len = K) (hmem : ∀ i, i < K → v.buf.mem i = some ()) :
    v.popN K = .ok (List.replicate K (some ()), { v with len := 0 }) := by
  induction K generalizing v with
  | zero =>
      obtain ⟨buf, len⟩ := v
      simp only at hlen
      subst hlen
      rfl
  | succ k ih =>
      obtain ⟨buf, len⟩ := v
      simp only at hlen
      subst hlen
      unfold NaiveVec.popN NaiveVec.pop
      simp only
      rw [hmem k (by omega)]
      dsimp only
      rw [ih ⟨buf, k⟩ rfl (fun i hi => hmem i (by omega))]
      rfl

/-- C7: with a zero-sized element type the capacity is `usize::MAX` from
creation, no allocation has occurred, every sequence of operations that
completes preserves both facts, and pushing the zero-sized marker value
`K ≤ usize::MAX` times then popping `K` times succeeds with every pop
returning the zero-sized value — still without any allocation. -/
theorem zst_spec :
    (∀ (α : Type), (NaiveVec.new α 0).buf.cap = USIZE_MAX ∧
      (NaiveVec.new α 0).buf.allocated = false) ∧
    (∀ (α : Type) (ops : List (Op α)) (v : NaiveVec α),
      (NaiveVec.new α 0).applyOps 0 ops = .ok v →
      v.buf.cap = USIZE_MAX ∧ v.buf.allocated = false) ∧
    (∀ K, K ≤ USIZE_MAX →
      ∃ v, (NaiveVec.new Unit 0).pushAll 0 (List.replicate K ()) = .ok v ∧
        v.popN K = .ok (List.replicate K (some ()), { v with len := 0 }) ∧
        v.buf.cap = USIZE_MAX ∧ v.buf.allocated = false) := by
  refine ⟨fun α => ⟨rfl, rfl⟩, fun α ops v h => NaiveVec.applyOps_zst rfl rfl h, fun K hK => ?_⟩
  obtain ⟨v, hv, hvc, hva⟩ :=
    NaiveVec.pushAll_zst_ok (List.replicate K ()) (NaiveVec.new Unit 0) rfl
      (by simpa [NaiveVec.new] using hK)
  obtain ⟨hlen, _, hnew⟩ := NaiveVec.pushAll_ok hv
  have hlenK : v.len = K := by simpa [NaiveVec.new] using hlen
  refine ⟨v, hv, ?_, by simpa using hvc, by simpa using hva⟩
  exact NaiveVec.popN_units K v hlenK (fun i hi => by
    have := hnew i (by simpa using hi)
    simpa [NaiveVec.new] using this)

/-- Two ZST pushes from empty, for the C7 witness. -/
def c7vec : NaiveVec Unit :=
  getOkV (NaiveVec.new Unit 0) ((NaiveVec.new Unit 0).pushAll 0 (List.replicate 2 ()))

/-- A concrete ZST state reached by a mixed operation sequence, for the
C7 witness. -/
def c7ops : NaiveVec Unit :=
  getOkV (NaiveVec.new Unit 0)
    ((NaiveVec.new Unit 0).applyOps 0 [.push (), .push (), .pop, .insert 0 ()])

/-- Witness for C7 at concrete inputs: a fresh ZST container has
capacity `usize::MAX` with no allocation; a mixed operation sequence
keeps both; pushing twice then popping twice returns the zero-sized
value both times. -/
theorem zst_spec_witness :
    (NaiveVec.new Unit 0).buf.cap = USIZE_MAX ∧
    (c7ops.buf.cap = USIZE_MAX ∧ c7ops.buf.allocated = false) ∧
    c7vec.popN 2 = .ok ([some (), some ()], { c7vec with len := 0 }) := by
  refine ⟨(zst_spec.1 Unit).1,
    zst_spec.2.1 Unit [.push (), .push (), .pop, .insert 0 ()] c7ops rfl, ?_⟩
  obtain ⟨v, hv, hpop, -, -⟩ := zst_spec.2.2 2 (by decide)
  have h2 : (NaiveVec.new Unit 0).pushAll 0 (List.replicate 2 ()) = .ok c7vec := rfl
  rw [h2] at hv
  have hveq : v = c7vec := (Except.ok.inj hv).symm
  rw [hveq] at hpop
  exact hpop

/-! ### drain: C3 -/

/-- Collecting a `Drain` whose iterator covers `n` live slots starting
at `s` yields exactly those slots' values in forward order, for any fuel
of at least `n` steps. -/
theorem Drain.collect_full {α} (mem : Nat → Option α) :
    ∀ n fuel s, n ≤ fuel →
      (∀ i, s ≤ i → i < s + n → (mem i).isSome) →
      Drain.collect fuel ⟨⟨s, s + n, mem⟩⟩ =
        .ok ((List.range' s n).filterMap mem) := by
  intro n
  induction n with
  | zero =>
      intro fuel s _ _
      cases fuel with
      | zero => rfl
      | succ f =>
          simp [Drain.collect, Drain.next, RawValIter.next]
  | succ k ih =>
      intro fuel s hf hl
      cases fuel with
      | zero => omega
      | succ f =>
          have hs : s ≠ s + (k + 1) := by omega
          obtain ⟨x, hx⟩ := Option.isSome_iff_exists.mp (hl s le_rfl (by omega))
          have hnext : Drain.next ⟨⟨s, s + (k + 1), mem⟩⟩ =
              .ok (some x, ⟨⟨s + 1, s + (k + 1), mem⟩⟩) := by
            unfold Drain.next RawValIter.next
            dsimp only
            rw [if_neg hs, hx]
          unfold Drain.collect
          rw [hnext]
          dsimp only
          have harg : s + (k + 1) = (s + 1) + k := by omega
          rw [harg, ih f (s + 1) (by omega) (fun i h1 h2 => hl i (by omega) (by omega))]
          rw [List.range'_succ]
          simp [List.filterMap_cons, hx, Except.map]

/-- C3: draining a container with live slots yields exactly the live
elements in forward order (any consumer fuel covering the length), and
afterwards the container's length is 0 while the buffer — capacity and
allocation state — is retained, so a further push on a container that
had a nonzero capacity succeeds without growing: same capacity, no
fresh allocation, leaving the drained container holding one element. -/
theorem drain_spec {α} (v : NaiveVec α)
    (hl : ∀ i, i < v.len → (v.buf.mem i).isSome) :
    (∀ fuel, v.len ≤ fuel → (v.drain).1.collect fuel = .ok v.derefVals) ∧
    (v.drain).2.len = 0 ∧
    (v.drain).2.buf.cap = v.buf.cap ∧
    (v.drain).2.buf.allocated = v.buf.allocated ∧
    (∀ sz elem, 0 < v.buf.cap →
      ∃ w, ((v.drain).2).push sz elem = .ok w ∧
        w.buf.cap = v.buf.cap ∧ w.buf.allocated = v.buf.allocated ∧ w.len = 1) := by
  refine ⟨fun fuel hfuel => ?_, rfl, rfl, rfl, fun sz elem hcap => ?_⟩
  · have h0 : (v.drain).1 = ⟨⟨0, 0 + v.len, v.buf.mem⟩⟩ := by
      unfold NaiveVec.drain RawValIter.new
      simp
    rw [h0, Drain.collect_full v.buf.mem v.len fuel 0 hfuel
      (fun i h1 h2 => hl i (by omega))]
    unfold NaiveVec.derefVals
    rw [List.range_eq_range']
  · have hne : ((v.drain).2).len ≠ ((v.drain).2).buf.cap := by
      show (0 : Nat) ≠ v.buf.cap
      omega
    refine ⟨⟨⟨(v.drain).2.buf.cap,
        fun i => if i = (v.drain).2.len then some elem else (v.drain).2.buf.mem i,
        (v.drain).2.buf.allocated⟩, (v.drain).2.len + 1⟩, ?_, rfl, rfl, rfl⟩
    unfold NaiveVec.push
    rw [if_neg hne]

/-- The container left behind by draining `[1,2,3,4]`. -/
def c3drained : NaiveVec Int := (cvec4.drain).2

/-- The drained container after one further push. -/
def c3push : NaiveVec Int := getOkV c3drained (c3drained.push 8 7)

/-- Witness for C3 at a concrete input: draining `[1,2,3,4]` yields
`[1,2,3,4]`, leaves length 0 with capacity 4 still allocated, and a
further push succeeds with the same capacity (no fresh allocation). -/
theorem drain_spec_witness :
    (cvec4.drain).1.collect 4 = .ok [1, 2, 3, 4] ∧
    c3drained.len = 0 ∧
    c3drained.buf.cap = 4 ∧
    c3push.buf.cap = 4 ∧ c3push.len = 1 := by
  have hl : ∀ i, i < cvec4.len → (cvec4.buf.mem i).isSome := by decide
  have hs := drain_spec cvec4 hl
  refine ⟨hs.1 4 (by decide), hs.2.1, hs.2.2.1, ?_⟩
  obtain ⟨w, hw, hwc, -, hwl⟩ := hs.2.2.2.2 8 7 (by decide)
  have h2 : c3drained.push 8 7 = .ok c3push := rfl
  have hweq : w = c3push := by
    rw [show ((cvec4.drain).2).push 8 7 = c3drained.push 8 7 from rfl, h2] at hw
    exact (Except.ok.inj hw).symm
  rw [hweq] at hwc hwl
  exact ⟨hwc, hwl⟩

end NaiveRs
